import Mathlib

/-!
Shallow embedding of the statsdaemon aggregation-and-flush engine
(graphite.go and openfalcon.go).

Metric names are modelled as lists of characters (Go strings are byte
strings; all operations used by the code are positional). Go float64
values are modelled as rationals; Go map iteration over the shared
stores is modelled by association lists (key-distinct lists of pairs),
which fixes one iteration order. Go panics (out-of-range slice or index
expressions) are modelled by Option: a function returns none exactly
where the Go code would panic.

The two backends duplicate the per-kind flush procedures line for line
(graphite.go processCounters/processGauges/processSets/processTimers and
the openfalcon.go methods of the same names); each procedure is embedded
once and shared by both submit models.
-/

namespace Statsdaemon

/-- Go string, as a list of characters. -/
abbrev Str := List Char

/-- One flushed record: metric name, numeric value, unix timestamp.
Both backends produce exactly this data per emission (graphite formats
it as a text line, openfalcon wraps it into a JSON object). -/
structure Record where
  name : Str
  value : ℚ
  ts : ℤ
  deriving DecidableEq, Repr

/-- Percentile specification, as in the Percentiles flag: a signed
magnitude (negative for the lower tail) and its original string form. -/
structure Pct where
  float : ℚ
  str : Str
  deriving DecidableEq, Repr

/-- Association-list lookup, first matching key. -/
def lookupA {α : Type} (k : Str) : List (Str × α) → Option α
  | [] => none
  | e :: r => if e.1 = k then some e.2 else lookupA k r

/-- Association-list insert-or-update: replaces the value at the first
occurrence of the key, appends at the end when the key is absent
(Go map assignment m[k] = v). -/
def insertA {α : Type} (k : Str) (v : α) : List (Str × α) → List (Str × α)
  | [] => [(k, v)]
  | e :: r => if e.1 = k then (k, v) :: r else e :: insertA k v r

/-- Association-list erase of the first occurrence of a key
(Go delete(m, k)). -/
def eraseA {α : Type} (k : Str) : List (Str × α) → List (Str × α)
  | [] => []
  | e :: r => if e.1 = k then r else e :: eraseA k r

/-- Counter-related shared state: the active counters mapping and the
countInactivity mapping (key to consecutive inactive-flush count). -/
abbrev CState := List (Str × ℚ) × List (Str × ℤ)

/-- Embedding of processCounters (graphite.go lines 78-98, identical to
openfalcon.go lines 100-117). First pass: emit every active counter,
delete it, reset its inactivity count to 0. Second pass, over the
inactivity mapping as left by the first pass: emit a zero record when
the count is positive, increment the count, and purge the key once the
count exceeds the persistCountKeys threshold N. -/
def processCounters (N now : ℤ) (p : CState) : List Record × CState :=
  let recs1 := p.1.map (fun e => Record.mk e.1 e.2 now)
  let ci1 := p.1.foldl (fun m e => insertA e.1 0 m) p.2
  let q := ci1.foldl
    (fun acc e =>
      let recs := if 0 < e.2 then acc.1 ++ [Record.mk e.1 0 now] else acc.1
      let c := e.2 + 1
      let m := if N < c then eraseA e.1 acc.2 else insertA e.1 c acc.2
      (recs, m))
    ([], ci1)
  (recs1 ++ q.1, ([], q.2))

/-- Embedding of processGauges (graphite.go lines 100-111, identical to
openfalcon.go lines 119-127): emit every gauge; delete the bucket just
after its emission exactly when the deleteGauges flag is set. -/
def processGauges (delG : Bool) (now : ℤ) : List (Str × ℚ) → List Record × List (Str × ℚ)
  | [] => ([], [])
  | e :: r =>
    let q := processGauges delG now r
    (Record.mk e.1 e.2 now :: q.1, if delG then q.2 else e :: q.2)

/-- Distinct-member count of a set bucket, as computed by the code: keys
of the uniqueSet map built by inserting every member. -/
def uniqueCount (l : List Str) : ℕ :=
  (l.foldl (fun acc s => if s ∈ acc then acc else acc ++ [s]) []).length

/-- Embedding of processSets (graphite.go lines 113-126, identical to
openfalcon.go lines 129-141): emit the distinct-member count of every
set bucket and unconditionally delete the bucket. -/
def processSets (now : ℤ) : List (Str × List Str) → List Record × List (Str × List Str)
  | [] => ([], [])
  | e :: r =>
    let q := processSets now r
    (Record.mk e.1 (uniqueCount e.2) now :: q.1, q.2)

/-- Go string slicing s[:j]: in range when 0 <= j <= len(s), a runtime
panic (none) otherwise. -/
def goSlice (s : Str) (j : ℤ) : Option Str :=
  if 0 ≤ j ∧ j ≤ (s.length : ℤ) then some (s.take j.toNat) else none

/-- Embedding of the stem computation bucket[:len(bucket)-len(pfix)]
(graphite.go line 131 and openfalcon.go line 145, with pfix the
configured postfix flag). -/
def stripTail (bucket pfix : Str) : Option Str :=
  goSlice bucket ((bucket.length : ℤ) - (pfix.length : ℤ))

/-- Go indexing s[i] on a slice of samples: in range when
0 <= i < len(s), a runtime panic (none) otherwise. -/
def goIndex (s : List ℚ) (i : ℤ) : Option ℚ :=
  if 0 ≤ i ∧ i < (s.length : ℤ) then some (s.getD i.toNat 0) else none

/-- Percentile index computation (graphite.go lines 148-159): abs is the
magnitude for an upper-tail spec and 100 + magnitude for a lower-tail
one; the index is floor(abs/100*count + 0.5), decremented by one only
for the upper tail. -/
def pctIndex (pf : ℚ) (count : ℕ) : ℤ :=
  let a := if 0 ≤ pf then pf else 100 + pf
  let i := ⌊a / 100 * (count : ℚ) + 1 / 2⌋
  if 0 ≤ pf then i - 1 else i

/-- Name of a percentile record: stem.upper_<label><pfix> for an
upper-tail spec, stem.lower_<label><pfix> with the sign character
stripped from the label for a lower-tail one. -/
def pctName (stem : Str) (pct : Pct) (pfix : Str) : Str :=
  if 0 ≤ pct.float then stem ++ ".upper_".toList ++ pct.str ++ pfix
  else stem ++ ".lower_".toList ++ pct.str.drop 1 ++ pfix

/-- Percentile records of one timer bucket, one per spec, in spec order.
With more than one sample the threshold is the sorted sample at
pctIndex (a panic propagates as none); with a single sample the
indexing is skipped and the running maxAtThreshold, i.e. the maximum,
is used. -/
def pctRecs (s : List ℚ) (mx : ℚ) (stem pfix : Str) (now : ℤ) : List Pct → Option (List Record)
  | [] => some []
  | pct :: rest =>
    let th := if 1 < s.length then goIndex s (pctIndex pct.float s.length) else some mx
    match th, pctRecs s mx stem pfix now rest with
    | some t, some rs => some (Record.mk (pctName stem pct pfix) t now :: rs)
    | _, _ => none

/-- Embedding of the per-bucket body of processTimers (graphite.go lines
130-185, identical to openfalcon.go lines 144-193): strip the postfix
from the bucket name, sort the samples ascending, then emit one record
per percentile spec followed by the mean, upper (max), lower (min) and
count records. none marks the Go panics: postfix longer than the key,
an empty bucket, or a percentile index out of range. -/
def processTimerBucket (bucket : Str) (timer : List ℚ) (pctls : List Pct) (pfix : Str) (now : ℤ) : Option (List Record) :=
  match stripTail bucket pfix with
  | none => none
  | some stem =>
    if timer = [] then none
    else
      let s := List.insertionSort (fun a b => a ≤ b) timer
      let mn := s.headD 0
      let mx := s.getLastD 0
      let count := s.length
      let mean := s.sum / (count : ℚ)
      match pctRecs s mx stem pfix now pctls with
      | none => none
      | some prs =>
        some (prs ++
          [Record.mk (stem ++ ".mean".toList ++ pfix) mean now,
           Record.mk (stem ++ ".upper".toList ++ pfix) mx now,
           Record.mk (stem ++ ".lower".toList ++ pfix) mn now,
           Record.mk (stem ++ ".count".toList ++ pfix) (count : ℚ) now])

/-- Embedding of the processTimers loop: every bucket is summarized and
then deleted, so the timers mapping is empty afterwards; any per-bucket
panic aborts the whole flush. -/
def processTimers (pctls : List Pct) (pfix : Str) (now : ℤ) : List (Str × List ℚ) → Option (List Record)
  | [] => some []
  | e :: r =>
    match processTimerBucket e.1 e.2 pctls pfix now, processTimers pctls pfix now r with
    | some rs, some rest => some (rs ++ rest)
    | _, _ => none

/-- Value of the first emitted record, used to observe the percentile
record of a single-spec timer flush (pctRecs puts the percentile
records first). -/
def firstVal : Option (List Record) → Option ℚ
  | none => none
  | some [] => none
  | some (r :: _) => some r.value

/-- Iterated counter flush cycles: state of the counters and inactivity
mappings after n further calls of processCounters with no new data
arriving in between. -/
def cIter (N now : ℤ) (p : CState) : ℕ → CState
  | 0 => p
  | n + 1 => (processCounters N now (cIter N now p n)).2

/-- Modelled from the spec: the ingestion path (the network listener is
not part of the two source files) accumulates counters by summation of
incoming deltas, a missing key starting from zero. -/
def applyCounterSamples (k : Str) (ds : List ℚ) (cs : List (Str × ℚ)) : List (Str × ℚ) :=
  ds.foldl
    (fun m d =>
      match lookupA k m with
      | some v => insertA k (v + d) m
      | none => insertA k d m)
    cs

/-- Index of the last occurrence of a character, -1 when absent
(Go strings.LastIndex restricted to a one-character separator). -/
def lastIdx (c : Char) : Str → ℤ
  | [] => -1
  | a :: r =>
    let i := lastIdx c r
    if 0 ≤ i then i + 1 else if a = c then 0 else -1

/-- Embedding of parseMetric (openfalcon.go lines 197-206): split the
metric at the last path separator into a name and a tag portion; when
the separator is absent the name is the whole metric and the tags are
empty. -/
def parseMetric (metric : Str) : Str × Str :=
  let i := lastIdx '/' metric
  if 0 ≤ i then (metric.take i.toNat, metric.drop (i.toNat + 1)) else (metric, [])

/-- One element of the openfalcon JSON batch. -/
structure Msg where
  metric : Str
  endpoint : Str
  tags : Str
  value : ℚ
  timestamp : ℤ
  counterType : Str
  step : ℤ
  deriving DecidableEq, Repr

/-- Embedding of appendPacket (openfalcon.go lines 43-55): parse the
metric name into name and tags and wrap the value into a message with
the fixed endpoint and counter type and the flush interval as step. -/
def mkMsg (step : ℤ) (metric : Str) (value : ℚ) (now : ℤ) : Msg :=
  let q := parseMetric metric
  Msg.mk q.1 "statsd".toList q.2 value now "GAUGE".toList step

/-- The shared metric store: the four metric mappings plus the
counter-inactivity mapping. -/
structure St where
  counters : List (Str × ℚ)
  countInactivity : List (Str × ℤ)
  gauges : List (Str × ℚ)
  timers : List (Str × List ℚ)
  sets : List (Str × List Str)
  deriving DecidableEq, Repr

/-- Configuration surface consumed by the flush code: persistCountKeys,
deleteGauges, the timer postfix, the percentile list and the flush
interval (the step of openfalcon messages). -/
structure Cfg where
  persistCountKeys : ℤ
  deleteGauges : Bool
  pfix : Str
  pctls : List Pct
  flushInterval : ℤ
  deriving Repr

/-- Full drain of the store, in submit order: counters, gauges, timers,
sets. Returns the concatenated records and the post-flush store, none
when a timer bucket panics. -/
def drainAll (cfg : Cfg) (st : St) (now : ℤ) : Option (List Record × St) :=
  let qc := processCounters cfg.persistCountKeys now (st.counters, st.countInactivity)
  let qg := processGauges cfg.deleteGauges now st.gauges
  match processTimers cfg.pctls cfg.pfix now st.timers with
  | none => none
  | some rt =>
    let qs := processSets now st.sets
    some (qc.1 ++ qg.1 ++ rt ++ qs.1, St.mk qc.2.1 qc.2.2 qg.2 [] qs.2)

/-- Network actions a submit call can perform, in order: a TCP dial
attempt, setting the connection deadline, one write of the whole text
buffer, one HTTP POST of the whole JSON batch. -/
inductive IOAct where
  | dial : IOAct
  | setDeadline : IOAct
  | write : List Record → IOAct
  | post : List Msg → IOAct
  deriving DecidableEq

/-- Embedding of the graphite submit (graphite.go lines 25-76). The
environment is abstracted by three flags telling whether the dial, the
SetDeadline call and the Write call would succeed. Returns the success
flag, the post-call store and the performed network actions; none when
a drain panics. On dial failure with debug set, the store is drained
and the formatted buffer discarded; on dial failure without debug the
store is untouched. After a successful dial the store is drained and
nothing is written when it produced no records. -/
def graphiteSubmit (debug dialOK sdOK writeOK : Bool) (cfg : Cfg) (st : St) (now : ℤ) : Option (Bool × St × List IOAct) :=
  if dialOK = false then
    if debug then
      match drainAll cfg st now with
      | none => none
      | some q => some (false, q.2, [IOAct.dial])
    else some (false, st, [IOAct.dial])
  else if sdOK = false then some (false, st, [IOAct.dial, IOAct.setDeadline])
  else
    match drainAll cfg st now with
    | none => none
    | some q =>
      if q.1.length = 0 then some (true, q.2, [IOAct.dial, IOAct.setDeadline])
      else some (writeOK, q.2, [IOAct.dial, IOAct.setDeadline, IOAct.write q.1])

/-- Embedding of the openfalcon submit (openfalcon.go lines 57-98): the
four process methods append one packet per record through appendPacket,
so the batch is the drained record list mapped through mkMsg; when the
batch is empty the call returns nil before any request is built, and
otherwise one POST of the whole batch is issued. -/
def openFalconSubmit (postOK : Bool) (cfg : Cfg) (st : St) (now : ℤ) : Option (Bool × St × List IOAct) :=
  match drainAll cfg st now with
  | none => none
  | some q =>
    let msgs := q.1.map (fun r => mkMsg cfg.flushInterval r.name r.value r.ts)
    if msgs.length = 0 then some (true, q.2, [])
    else some (postOK, q.2, [IOAct.post msgs])

/-! Helper lemmas. -/

/-- The record list produced by processGauges is the gauges mapping
itself, in order. -/
theorem processGauges_fst (delG : Bool) (now : ℤ) (gs : List (Str × ℚ)) :
    (processGauges delG now gs).1 = gs.map (fun e => Record.mk e.1 e.2 now) := by
  induction gs with
  | nil => rfl
  | cons e r ih => simp [processGauges, ih]

/-- With deleteGauges set every bucket is deleted. -/
theorem processGauges_snd_true (now : ℤ) (gs : List (Str × ℚ)) :
    (processGauges true now gs).2 = [] := by
  induction gs with
  | nil => rfl
  | cons e r ih => simp [processGauges, ih]

/-- Without deleteGauges the gauges mapping is untouched. -/
theorem processGauges_snd_false (now : ℤ) (gs : List (Str × ℚ)) :
    (processGauges false now gs).2 = gs := by
  induction gs with
  | nil => rfl
  | cons e r ih => simp [processGauges, ih]

/-- The uniqueSet fold keeps its accumulator duplicate-free and collects
exactly the members seen so far. -/
theorem uniq_fold_spec (l : List Str) : ∀ acc : List Str, acc.Nodup →
    (l.foldl (fun acc s => if s ∈ acc then acc else acc ++ [s]) acc).Nodup ∧
    (l.foldl (fun acc s => if s ∈ acc then acc else acc ++ [s]) acc).toFinset =
      acc.toFinset ∪ l.toFinset := by
  induction l with
  | nil => intro acc h; simpa using h
  | cons s r ih =>
    intro acc h
    by_cases hs : s ∈ acc
    · have := ih acc h
      simp only [List.foldl_cons, if_pos hs]
      refine ⟨this.1, ?_⟩
      rw [this.2, List.toFinset_cons, Finset.union_insert,
        Finset.insert_eq_self.mpr (by simp [List.mem_toFinset, hs])]
    · have hnd : (acc ++ [s]).Nodup := by simp [List.nodup_append, h, hs]
      have := ih (acc ++ [s]) hnd
      simp only [List.foldl_cons, if_neg hs]
      refine ⟨this.1, ?_⟩
      rw [this.2, List.toFinset_cons, List.toFinset_append]
      ext x
      simp
      tauto

/-- The uniqueSet cardinality is the number of distinct members. -/
theorem uniqueCount_eq_card (l : List Str) : uniqueCount l = l.toFinset.card := by
  obtain ⟨h1, h2⟩ := uniq_fold_spec l [] List.nodup_nil
  unfold uniqueCount
  rw [← List.toFinset_card_of_nodup h1, h2]
  simp

/-- When the postfix is no longer than the bucket key the stem slice is
in range and keeps the first len(k) - len(p) characters. -/
theorem stripTail_of_le (k p : Str) (h : p.length ≤ k.length) :
    stripTail k p = some (k.take (k.length - p.length)) := by
  have ht : (((k.length : ℤ) - (p.length : ℤ))).toNat = k.length - p.length := by omega
  unfold stripTail goSlice
  rw [if_pos ⟨by omega, by omega⟩, ht]

/-- The stem slice panics exactly when the postfix is longer than the
bucket key. -/
theorem stripTail_eq_none_iff (k p : Str) :
    stripTail k p = none ↔ (k.length : ℤ) < (p.length : ℤ) := by
  unfold stripTail goSlice
  split
  · rename_i hc
    simp only [reduceCtorEq, false_iff]
    omega
  · rename_i hc
    simp only [true_iff]
    omega

/-- With a single sample the indexing is skipped and every percentile
record carries the running maximum. -/
theorem pctRecs_single (v mx : ℚ) (stem pfix : Str) (now : ℤ) (pctls : List Pct) :
    pctRecs [v] mx stem pfix now pctls =
      some (pctls.map (fun pct => Record.mk (pctName stem pct pfix) mx now)) := by
  induction pctls with
  | nil => rfl
  | cons pct rest ih => simp [pctRecs, ih]

/-- The last-occurrence index is nonnegative exactly when the character
occurs. -/
theorem lastIdx_nonneg_iff (c : Char) (l : Str) : 0 ≤ lastIdx c l ↔ c ∈ l := by
  induction l with
  | nil => simp [lastIdx]
  | cons a r ih =>
    simp only [lastIdx, List.mem_cons]
    by_cases hi : 0 ≤ lastIdx c r
    · rw [if_pos hi]
      constructor
      · intro _
        exact Or.inr (ih.mp hi)
      · intro _
        omega
    · rw [if_neg hi]
      by_cases ha : a = c
      · rw [if_pos ha]
        constructor
        · intro _
          exact Or.inl ha.symm
        · intro _
          exact le_refl 0
      · rw [if_neg ha]
        constructor
        · intro hh
          omega
        · rintro (h1 | h1)
          · exact absurd h1.symm ha
          · exact absurd (ih.mpr h1) hi

/-- Splitting at the last occurrence: the part before the index, the
character, and the part after it reassemble the string, and the part
after it is free of the character. -/
theorem lastIdx_split (c : Char) (l : Str) (h : c ∈ l) :
    l.take (lastIdx c l).toNat ++ c :: l.drop ((lastIdx c l).toNat + 1) = l ∧
    c ∉ l.drop ((lastIdx c l).toNat + 1) := by
  induction l with
  | nil => cases h
  | cons a r ih =>
    by_cases hr : c ∈ r
    · have hi : 0 ≤ lastIdx c r := (lastIdx_nonneg_iff c r).mpr hr
      have hlr : lastIdx c (a :: r) = lastIdx c r + 1 := by simp [lastIdx, if_pos hi]
      have ht : (lastIdx c r + 1).toNat = (lastIdx c r).toNat + 1 := by omega
      obtain ⟨ih1, ih2⟩ := ih hr
      rw [hlr, ht]
      constructor
      · simpa [List.take_succ_cons, List.drop_succ_cons] using ih1
      · simpa [List.drop_succ_cons] using ih2
    · have hca : c = a := by
        rcases List.mem_cons.mp h with h1 | h1
        · exact h1
        · exact absurd h1 hr
      have hi : ¬ 0 ≤ lastIdx c r := fun hh => hr ((lastIdx_nonneg_iff c r).mp hh)
      have hz : lastIdx c (a :: r) = 0 := by simp [lastIdx, if_neg hi, hca.symm]
      rw [hz]
      simpa [hca] using hr

/-- Percentile index of the upper-tail spec 50 on five samples. -/
theorem pctIndex_upper_fifty : pctIndex 50 5 = 2 := by
  norm_num [pctIndex]

/-- Percentile index of the lower-tail spec 50 (stored magnitude -50) on
five samples: abs is 50, floor(0.5*5 + 0.5) is 3, and no offset is
subtracted for the lower tail. -/
theorem pctIndex_lower_fifty : pctIndex (-50) 5 = 3 := by
  norm_num [pctIndex]

/-- Evaluation of the upper-tail 50 spec on the sorted samples 1..5. -/
theorem upper_fifty_example :
    firstVal (processTimerBucket ['t'] [1, 2, 3, 4, 5] [Pct.mk 50 ['5', '0']] [] 0) =
      some 3 := by
  norm_num [processTimerBucket, stripTail, goSlice, pctRecs, goIndex, pctIndex, pctName,
    firstVal, List.insertionSort, List.orderedInsert]
  decide

/-- Evaluation of the lower-tail 50 spec on the sorted samples 1..5: the
emitted threshold is the sample at index 3, namely 4. -/
theorem lower_fifty_example :
    firstVal (processTimerBucket ['t'] [1, 2, 3, 4, 5] [Pct.mk (-50) ['-', '5', '0']] [] 0) =
      some 4 := by
  norm_num [processTimerBucket, stripTail, goSlice, pctRecs, goIndex, pctIndex, pctName,
    firstVal, List.insertionSort, List.orderedInsert]
  decide

/-- With more than one sample and the index in range, the percentile
record of a single-spec flush carries the sorted sample at pctIndex. -/
theorem pctRecs_threshold (s : List ℚ) (mx : ℚ) (stem pfix : Str) (now : ℤ) (pct : Pct)
    (h1 : 1 < s.length) (h0 : 0 ≤ pctIndex pct.float s.length)
    (hL : pctIndex pct.float s.length < (s.length : ℤ)) :
    pctRecs s mx stem pfix now [pct] =
      some [Record.mk (pctName stem pct pfix)
        (s.getD (pctIndex pct.float s.length).toNat 0) now] := by
  simp only [pctRecs, if_pos h1, goIndex, if_pos (And.intro h0 hL)]

/-- Accumulating further deltas onto an existing counter entry sums
them. -/
theorem applyCounterSamples_acc (k : Str) (ds : List ℚ) : ∀ a : ℚ,
    applyCounterSamples k ds [(k, a)] = [(k, a + ds.sum)] := by
  induction ds with
  | nil => intro a; simp [applyCounterSamples]
  | cons d rest ih =>
    intro a
    have h1 : applyCounterSamples k (d :: rest) [(k, a)] =
        applyCounterSamples k rest [(k, a + d)] := by
      simp [applyCounterSamples, lookupA, insertA]
    rw [h1, ih]
    simp [add_assoc]

/-- A nonempty delta sequence ingested from scratch leaves exactly the
key with the sum of the deltas. -/
theorem applyCounterSamples_sum (k : Str) (d : ℚ) (rest : List ℚ) :
    applyCounterSamples k (d :: rest) [] = [(k, (d :: rest).sum)] := by
  have h1 : applyCounterSamples k (d :: rest) [] =
      applyCounterSamples k rest [(k, d)] := by
    simp [applyCounterSamples, lookupA, insertA]
  rw [h1, applyCounterSamples_acc]
  simp

/-- One flush of a store holding a single active counter: the value is
emitted, the counter is deleted, and the inactivity count ends the
flush at 1 (0 after the first pass, incremented by the zero-fill pass),
the key being purged at once when the threshold is below 1. -/
theorem processCounters_start (N now : ℤ) (k : Str) (v : ℚ) :
    processCounters N now ([(k, v)], []) =
      ([Record.mk k v now], ([], if N < 1 then [] else [(k, 1)])) := by
  simp [processCounters, insertA, eraseA]

/-- Flushing an empty counter store does nothing. -/
theorem processCounters_empty (N now : ℤ) :
    processCounters N now ([], []) = ([], ([], [])) := rfl

/-- One flush of a store holding a single inactivity entry with a
positive count: a zero record is emitted, the count is incremented and
the key is purged exactly when the new count exceeds the threshold. -/
theorem processCounters_mid (N now : ℤ) (k : Str) (c : ℤ) (hc : 0 < c) :
    processCounters N now ([], [(k, c)]) =
      ([Record.mk k 0 now], ([], if N < c + 1 then [] else [(k, c + 1)])) := by
  simp [processCounters, insertA, eraseA, if_pos hc]

/-- State of the singleton counter run after 1 + j cycles, while j is
still below the retention threshold: only the inactivity entry with
count j + 1 remains. -/
theorem cIter_mid (N now : ℤ) (k : Str) (v : ℚ) : ∀ j : ℕ, (j : ℤ) < N →
    cIter N now ([(k, v)], []) (j + 1) = ([], [(k, (j : ℤ) + 1)]) := by
  intro j
  induction j with
  | zero =>
    intro hj
    show (processCounters N now (cIter N now ([(k, v)], []) 0)).2 = _
    rw [show cIter N now ([(k, v)], []) 0 = ([(k, v)], []) from rfl,
      processCounters_start N now k v]
    rw [if_neg (by omega : ¬ N < 1)]
    norm_num
  | succ i ih =>
    intro hj
    have hi : (i : ℤ) < N := by
      push_cast at hj ⊢
      omega
    show (processCounters N now (cIter N now ([(k, v)], []) (i + 1))).2 = _
    rw [ih hi, processCounters_mid N now k ((i : ℤ) + 1) (by omega)]
    rw [if_neg (by push_cast at hj ⊢; omega : ¬ N < (i : ℤ) + 1 + 1)]
    push_cast
    norm_num

/-- After the zero-fill window closes both counter mappings are empty. -/
theorem cIter_done (N now : ℤ) (k : Str) (v : ℚ) (hN : 0 ≤ N) :
    cIter N now ([(k, v)], []) (N.toNat + 1) = ([], []) := by
  rcases Nat.eq_zero_or_pos N.toNat with h | h
  · have hN0 : N = 0 := by omega
    show (processCounters N now (cIter N now ([(k, v)], []) N.toNat)).2 = _
    rw [h, show cIter N now ([(k, v)], []) 0 = ([(k, v)], []) from rfl,
      processCounters_start N now k v]
    rw [if_pos (by omega : N < 1)]
  · obtain ⟨m, hm⟩ := Nat.exists_eq_add_of_lt h
    rw [show N.toNat + 1 = (m + 1) + 1 from by omega]
    show (processCounters N now (cIter N now ([(k, v)], []) (m + 1))).2 = _
    have hmN : (m : ℤ) < N := by omega
    rw [cIter_mid N now k v m hmN, processCounters_mid N now k ((m : ℤ) + 1) (by omega)]
    rw [if_pos (by omega : N < (m : ℤ) + 1 + 1)]

/-- The empty counter state is a fixed point of the flush cycle. -/
theorem cIter_empty_forever (N now : ℤ) : ∀ m : ℕ, cIter N now ([], []) m = ([], []) := by
  intro m
  induction m with
  | zero => rfl
  | succ i ih =>
    show (processCounters N now (cIter N now ([], []) i)).2 = _
    rw [ih, processCounters_empty]

/-- Splitting an iterated flush run. -/
theorem cIter_add (N now : ℤ) (p : CState) (a : ℕ) : ∀ b : ℕ,
    cIter N now p (a + b) = cIter N now (cIter N now p a) b := by
  intro b
  induction b with
  | zero => rfl
  | succ i ih =>
    show (processCounters N now (cIter N now p (a + i))).2 = _
    rw [ih]
    rfl

/-! Claim theorems. -/

/-- C7: flushGauges emits the current value of every gauge key; with the
delete-inactive-gauges option enabled every emitted key is deleted right
after its emission, and with the option disabled the gauges mapping is
left completely unchanged, so the identical records are produced by the
next flush. -/
theorem gauge_flush_spec (delG : Bool) (now : ℤ) (gs : List (Str × ℚ)) :
    (processGauges delG now gs).1 = gs.map (fun e => Record.mk e.1 e.2 now) ∧
    (processGauges true now gs).2 = [] ∧
    (processGauges false now gs).2 = gs ∧
    (processGauges false now (processGauges false now gs).2).1 =
      (processGauges false now gs).1 :=
  ⟨processGauges_fst delG now gs, processGauges_snd_true now gs,
    processGauges_snd_false now gs, by rw [processGauges_snd_false]⟩

/-- C8: flushSets emits, for every set bucket, one record whose value is
the number of distinct member strings of the bucket (order and
multiplicity irrelevant, as the Finset of members), removes every bucket
unconditionally, and on the members a, a, b the emitted count is 2. -/
theorem set_flush_spec (now : ℤ) (ss : List (Str × List Str)) :
    (processSets now ss).1 =
      ss.map (fun e => Record.mk e.1 (e.2.toFinset.card : ℚ) now) ∧
    (processSets now ss).2 = [] ∧
    uniqueCount ["a".toList, "a".toList, "b".toList] = 2 := by
  refine ⟨?_, ?_, by decide⟩
  · induction ss with
    | nil => rfl
    | cons e r ih => simp [processSets, ih, uniqueCount_eq_card]
  · induction ss with
    | nil => rfl
    | cons e r ih => simpa [processSets] using ih

/-- C10: for a bucket key at least as long as the configured postfix,
the stem is the key with exactly its last len(p) characters removed,
the removal is purely positional (any postfix of the same length gives
the same stem), and the slice panics exactly when the postfix is longer
than the key. -/
theorem timer_stem_spec (k p : Str) (h : p.length ≤ k.length) :
    stripTail k p = some (k.take (k.length - p.length)) ∧
    (∀ p' : Str, p'.length = p.length → stripTail k p' = stripTail k p) ∧
    k.take (k.length - p.length) ++ k.drop (k.length - p.length) = k ∧
    (k.drop (k.length - p.length)).length = p.length ∧
    (∀ k2 p2 : Str, stripTail k2 p2 = none ↔ (k2.length : ℤ) < (p2.length : ℤ)) := by
  refine ⟨stripTail_of_le k p h, ?_, List.take_append_drop _ k, ?_, ?_⟩
  · intro p' hp
    unfold stripTail
    rw [hp]
  · rw [List.length_drop]
    omega
  · intro k2 p2
    exact stripTail_eq_none_iff k2 p2

/-- Witness for C10 at the key "reqms" and postfix "ms". -/
theorem timer_stem_spec_witness :
    stripTail "reqms".toList "ms".toList =
      some ("reqms".toList.take ("reqms".toList.length - "ms".toList.length)) ∧
    (∀ p' : Str, p'.length = "ms".toList.length →
      stripTail "reqms".toList p' = stripTail "reqms".toList "ms".toList) ∧
    "reqms".toList.take ("reqms".toList.length - "ms".toList.length) ++
      "reqms".toList.drop ("reqms".toList.length - "ms".toList.length) = "reqms".toList ∧
    ("reqms".toList.drop ("reqms".toList.length - "ms".toList.length)).length =
      "ms".toList.length ∧
    (∀ k2 p2 : Str, stripTail k2 p2 = none ↔ (k2.length : ℤ) < (p2.length : ℤ)) :=
  timer_stem_spec "reqms".toList "ms".toList (by decide)

/-- C4: a timer bucket holding exactly one sample v flushes to mean v,
upper v, lower v, count 1, and one record per configured percentile
spec whose threshold is v, the indexing being skipped. -/
theorem timer_single_sample (k p : Str) (v : ℚ) (pctls : List Pct) (now : ℤ)
    (h : p.length ≤ k.length) :
    processTimerBucket k [v] pctls p now =
      some ((pctls.map fun pct =>
          Record.mk (pctName (k.take (k.length - p.length)) pct p) v now) ++
        [Record.mk (k.take (k.length - p.length) ++ ".mean".toList ++ p) v now,
         Record.mk (k.take (k.length - p.length) ++ ".upper".toList ++ p) v now,
         Record.mk (k.take (k.length - p.length) ++ ".lower".toList ++ p) v now,
         Record.mk (k.take (k.length - p.length) ++ ".count".toList ++ p) 1 now]) := by
  unfold processTimerBucket
  rw [stripTail_of_le k p h]
  simp [List.insertionSort, List.orderedInsert, pctRecs_single]

/-- Witness for C4: bucket "tm", postfix "m", sample 7, one percentile
spec 90. -/
theorem timer_single_sample_witness :
    processTimerBucket "tm".toList [7] [Pct.mk 90 "90".toList] "m".toList 0 =
      some (([Pct.mk 90 "90".toList].map fun pct =>
          Record.mk (pctName ("tm".toList.take ("tm".toList.length - "m".toList.length))
            pct "m".toList) 7 0) ++
        [Record.mk ("tm".toList.take ("tm".toList.length - "m".toList.length) ++
            ".mean".toList ++ "m".toList) 7 0,
         Record.mk ("tm".toList.take ("tm".toList.length - "m".toList.length) ++
            ".upper".toList ++ "m".toList) 7 0,
         Record.mk ("tm".toList.take ("tm".toList.length - "m".toList.length) ++
            ".lower".toList ++ "m".toList) 7 0,
         Record.mk ("tm".toList.take ("tm".toList.length - "m".toList.length) ++
            ".count".toList ++ "m".toList) 1 0]) :=
  timer_single_sample "tm".toList "m".toList 7 [Pct.mk 90 "90".toList] 0 (by decide)

/-- C9: a batched-backend packet built from a metric name containing the
path separator carries the portion before the last separator as its
name field and the portion after it as its tags field; without a
separator the name field is the whole metric and the tags field is
empty. -/
theorem falcon_tag_split (step : ℤ) (m : Str) (v : ℚ) (now : ℤ) :
    (('/' : Char) ∈ m →
      m = (mkMsg step m v now).metric ++ '/' :: (mkMsg step m v now).tags ∧
      ('/' : Char) ∉ (mkMsg step m v now).tags) ∧
    (('/' : Char) ∉ m →
      (mkMsg step m v now).metric = m ∧ (mkMsg step m v now).tags = []) := by
  constructor
  · intro h
    have hi : 0 ≤ lastIdx '/' m := (lastIdx_nonneg_iff '/' m).mpr h
    have hs := lastIdx_split '/' m h
    simp only [mkMsg, parseMetric, if_pos hi]
    exact ⟨hs.1.symm, hs.2⟩
  · intro h
    have hi : ¬ 0 ≤ lastIdx '/' m := fun hh => h ((lastIdx_nonneg_iff '/' m).mp hh)
    simp [mkMsg, parseMetric, if_neg hi]

/-- Witness for C9 at the metric names cpu/h (with separator) and cpu
(without). -/
theorem falcon_tag_split_witness :
    ("cpu/h".toList = (mkMsg 30 "cpu/h".toList 1 0).metric ++ '/' ::
        (mkMsg 30 "cpu/h".toList 1 0).tags ∧
      ('/' : Char) ∉ (mkMsg 30 "cpu/h".toList 1 0).tags) ∧
    ((mkMsg 30 "cpu".toList 1 0).metric = "cpu".toList ∧
      (mkMsg 30 "cpu".toList 1 0).tags = []) :=
  ⟨(falcon_tag_split 30 "cpu/h".toList 1 0).1 (by decide),
   (falcon_tag_split 30 "cpu".toList 1 0).2 (by decide)⟩

/-- C1 counterexample: on the samples 1..5 the lower-tail 50 spec
(stored magnitude -50) yields index 3 and threshold 4, refuting the
claimed index 2 and threshold 3. -/
theorem pct_lower_fifty_counterexample :
    ¬ (pctIndex (-50) 5 = 2 ∧
        firstVal (processTimerBucket ['t'] [1, 2, 3, 4, 5]
          [Pct.mk (-50) ['-', '5', '0']] [] 0) = some 3) ∧
    pctIndex (-50) 5 = 3 ∧
    firstVal (processTimerBucket ['t'] [1, 2, 3, 4, 5]
      [Pct.mk (-50) ['-', '5', '0']] [] 0) = some 4 := by
  refine ⟨?_, pctIndex_lower_fifty, lower_fifty_example⟩
  rintro ⟨ha, hb⟩
  have := pctIndex_lower_fifty
  omega

/-- C1 (amended): for a timer bucket with more than one sample the
percentile record carries the sorted sample at index
floor(abs/100*count + 0.5), with abs the magnitude for an upper-tail
spec and 100 plus the magnitude for a lower-tail one, decremented by
one only for the upper tail; on the samples 1..5 the spec upper 50
yields index 2 and threshold 3, and the spec lower 50 yields index 3
and threshold 4. -/
theorem pct_threshold_spec (k p : Str) (timer : List ℚ) (pct : Pct) (now : ℤ)
    (hk : p.length ≤ k.length) (h1 : 1 < timer.length)
    (h0 : 0 ≤ pctIndex pct.float timer.length)
    (hL : pctIndex pct.float timer.length < (timer.length : ℤ)) :
    (∃ rest, processTimerBucket k timer [pct] p now =
      some (Record.mk (pctName (k.take (k.length - p.length)) pct p)
        ((List.insertionSort (fun a b => a ≤ b) timer).getD
          (pctIndex pct.float timer.length).toNat 0) now :: rest)) ∧
    firstVal (processTimerBucket ['t'] [1, 2, 3, 4, 5] [Pct.mk 50 ['5', '0']] [] 0) =
      some 3 ∧
    pctIndex 50 5 = 2 ∧
    firstVal (processTimerBucket ['t'] [1, 2, 3, 4, 5] [Pct.mk (-50) ['-', '5', '0']] [] 0) =
      some 4 ∧
    pctIndex (-50) 5 = 3 := by
  refine ⟨?_, upper_fifty_example, pctIndex_upper_fifty, lower_fifty_example,
    pctIndex_lower_fifty⟩
  have hlen : (List.insertionSort (fun a b => a ≤ b) timer).length = timer.length :=
    (List.perm_insertionSort _ timer).length_eq
  have hne : ¬ (timer = []) := by
    intro hh
    rw [hh] at h1
    simp at h1
  have hrec := pctRecs_threshold (List.insertionSort (fun a b => a ≤ b) timer)
    ((List.insertionSort (fun a b => a ≤ b) timer).getLastD 0)
    (k.take (k.length - p.length)) p now pct (by rw [hlen]; exact h1)
    (by rw [hlen]; exact h0) (by rw [hlen]; exact hL)
  rw [hlen] at hrec
  unfold processTimerBucket
  rw [stripTail_of_le k p hk]
  dsimp only
  rw [if_neg hne, hrec]
  exact ⟨_, rfl⟩

/-- Witness for C1 at the bucket t, empty postfix, samples 1..5 and the
upper-tail 50 spec. -/
theorem pct_threshold_spec_witness :
    (∃ rest, processTimerBucket ['t'] [1, 2, 3, 4, 5] [Pct.mk 50 ['5', '0']] [] 0 =
      some (Record.mk (pctName (['t'].take (['t'].length - ([] : Str).length))
          (Pct.mk 50 ['5', '0']) [])
        ((List.insertionSort (fun a b => a ≤ b) ([1, 2, 3, 4, 5] : List ℚ)).getD
          (pctIndex (Pct.mk 50 ['5', '0']).float ([1, 2, 3, 4, 5] : List ℚ).length).toNat 0)
        0 :: rest)) ∧
    firstVal (processTimerBucket ['t'] [1, 2, 3, 4, 5] [Pct.mk 50 ['5', '0']] [] 0) =
      some 3 ∧
    pctIndex 50 5 = 2 ∧
    firstVal (processTimerBucket ['t'] [1, 2, 3, 4, 5] [Pct.mk (-50) ['-', '5', '0']] [] 0) =
      some 4 ∧
    pctIndex (-50) 5 = 3 :=
  pct_threshold_spec ['t'] [] [1, 2, 3, 4, 5] (Pct.mk 50 ['5', '0']) 0 (by decide)
    (by decide) (by norm_num [pctIndex]) (by norm_num [pctIndex])

/-- C2: a counter flushed once and then starved emits a zero record in
exactly the N following cycles (N the retention threshold, 0 ≤ N): the
value cycle emits the value, each of the N next cycles emits one zero
record, the state after cycle N + 1 has the key gone from both the
counters and the inactivity mapping, and every later cycle emits
nothing. -/
theorem counter_retention_spec (k : Str) (v : ℚ) (now N : ℤ) (hN : 0 ≤ N) :
    (processCounters N now ([(k, v)], [])).1 = [Record.mk k v now] ∧
    (∀ j : ℕ, (j : ℤ) < N →
      (processCounters N now (cIter N now ([(k, v)], []) (j + 1))).1 =
        [Record.mk k 0 now]) ∧
    cIter N now ([(k, v)], []) (N.toNat + 1) = ([], []) ∧
    (∀ m : ℕ, N.toNat + 1 ≤ m →
      cIter N now ([(k, v)], []) m = ([], []) ∧
      (processCounters N now (cIter N now ([(k, v)], []) m)).1 = []) := by
  refine ⟨?_, ?_, cIter_done N now k v hN, ?_⟩
  · rw [processCounters_start]
  · intro j hj
    rw [cIter_mid N now k v j hj, processCounters_mid N now k ((j : ℤ) + 1) (by omega)]
  · intro m hm
    obtain ⟨r, rfl⟩ : ∃ r, m = (N.toNat + 1) + r := ⟨m - (N.toNat + 1), by omega⟩
    rw [cIter_add, cIter_done N now k v hN, cIter_empty_forever, processCounters_empty]
    exact ⟨rfl, rfl⟩

/-- Witness for C2 with key a, value 5 and retention threshold 2. -/
theorem counter_retention_spec_witness :
    (processCounters 2 0 ([(['a'], 5)], [])).1 = [Record.mk ['a'] 5 0] ∧
    (∀ j : ℕ, (j : ℤ) < 2 →
      (processCounters 2 0 (cIter 2 0 ([(['a'], 5)], []) (j + 1))).1 =
        [Record.mk ['a'] 0 0]) ∧
    cIter 2 0 ([(['a'], 5)], []) ((2 : ℤ).toNat + 1) = ([], []) ∧
    (∀ m : ℕ, (2 : ℤ).toNat + 1 ≤ m →
      cIter 2 0 ([(['a'], 5)], []) m = ([], []) ∧
      (processCounters 2 0 (cIter 2 0 ([(['a'], 5)], []) m)).1 = []) :=
  counter_retention_spec ['a'] 5 0 2 (by decide)

/-- C5 counterexample: after one whole flush of the single counter a
with value 5 (threshold 60), the key's inactivity count is 1, not 0:
the first pass resets it to 0 but the zero-fill pass of the same flush
increments it before the flush returns. -/
theorem counter_inactivity_counterexample :
    (processCounters 60 0 ([(['a'], 5)], [])).2.2 = [(['a'], 1)] ∧
    lookupA ['a'] (processCounters 60 0 ([(['a'], 5)], [])).2.2 ≠ some 0 := by
  constructor
  · rw [processCounters_start]
    norm_num
  · rw [processCounters_start]
    norm_num [lookupA]

/-- C5 (amended): flushing a counter fed a nonempty sequence of deltas
since the previous flush emits exactly one record carrying their sum,
leaves the key absent from the counters mapping, and leaves its
inactivity count at 1 (reset to 0 by the first pass and incremented by
the zero-fill pass of the same flush) when the retention threshold is
at least 1. -/
theorem counter_flush_spec (k : Str) (ds : List ℚ) (now N : ℤ) (hne : ds ≠ [])
    (hN : 1 ≤ N) :
    processCounters N now (applyCounterSamples k ds [], []) =
      ([Record.mk k ds.sum now], ([], [(k, 1)])) := by
  obtain ⟨d, rest, rfl⟩ := List.exists_cons_of_ne_nil hne
  rw [applyCounterSamples_sum, processCounters_start, if_neg (by omega : ¬ N < 1)]

/-- Witness for C5: the key hits receives the deltas 3 and 2 and flushes
to a single record of value 5. -/
theorem counter_flush_spec_witness :
    processCounters 60 0 (applyCounterSamples "hits".toList [3, 2] [], []) =
      ([Record.mk "hits".toList (List.sum [3, 2]) 0], ([], [("hits".toList, 1)])) :=
  counter_flush_spec "hits".toList [3, 2] 0 60 (by decide) (by decide)

/-- C3 counterexample: with every store empty the streaming backend
still dials the connection and sets its deadline before draining, so a
successful empty-store submit performs network I/O — the dial action is
in its trace — refuting the no-connection claim for this backend. -/
theorem empty_submit_counterexample :
    graphiteSubmit false true true true (Cfg.mk 60 false [] [] 30)
        (St.mk [] [] [] [] []) 0 =
      some (true, St.mk [] [] [] [] [], [IOAct.dial, IOAct.setDeadline]) ∧
    IOAct.dial ∈ [IOAct.dial, IOAct.setDeadline] := by
  constructor
  · rfl
  · simp

/-- C3 (amended): when the drain yields zero records, both backends
return success and transmit nothing: the batched backend performs no
network action at all, while the streaming backend still dials and sets
the deadline but performs no write. -/
theorem empty_drain_submit (debug writeOK postOK : Bool) (cfg : Cfg) (st st' : St)
    (now : ℤ) (h : drainAll cfg st now = some ([], st')) :
    openFalconSubmit postOK cfg st now = some (true, st', []) ∧
    graphiteSubmit debug true true writeOK cfg st now =
      some (true, st', [IOAct.dial, IOAct.setDeadline]) := by
  constructor
  · unfold openFalconSubmit
    rw [h]
    simp
  · unfold graphiteSubmit
    rw [h]
    simp

/-- Witness for C3 (amended) at the empty store. -/
theorem empty_drain_submit_witness :
    openFalconSubmit true (Cfg.mk 60 false [] [] 30) (St.mk [] [] [] [] []) 0 =
      some (true, St.mk [] [] [] [] [], []) ∧
    graphiteSubmit false true true true (Cfg.mk 60 false [] [] 30)
        (St.mk [] [] [] [] []) 0 =
      some (true, St.mk [] [] [] [] [], [IOAct.dial, IOAct.setDeadline]) :=
  empty_drain_submit false true true (Cfg.mk 60 false [] [] 30) (St.mk [] [] [] [] [])
    (St.mk [] [] [] [] []) 0 (by rfl)

/-- C6: when the dial of the streaming backend fails, a debug-mode
submit still drains the four stores, discards the formatted output (its
trace holds no write action) and reports failure, while a normal-mode
submit reports failure with the store untouched. -/
theorem dial_failure_spec (sdOK writeOK : Bool) (cfg : Cfg) (st : St) (now : ℤ)
    (recs : List Record) (st' : St) (h : drainAll cfg st now = some (recs, st')) :
    graphiteSubmit true false sdOK writeOK cfg st now =
      some (false, st', [IOAct.dial]) ∧
    graphiteSubmit false false sdOK writeOK cfg st now =
      some (false, st, [IOAct.dial]) ∧
    (∀ rs : List Record, IOAct.write rs ∉ ([IOAct.dial] : List IOAct)) := by
  refine ⟨?_, rfl, by simp⟩
  unfold graphiteSubmit
  rw [h]
  simp

/-- Witness for C6 at a store holding one counter. -/
theorem dial_failure_spec_witness :
    graphiteSubmit true false true true (Cfg.mk 60 false [] [] 30)
        (St.mk [(['a'], 3)] [] [] [] []) 0 =
      some (false, St.mk [] [(['a'], 1)] [] [] [], [IOAct.dial]) ∧
    graphiteSubmit false false true true (Cfg.mk 60 false [] [] 30)
        (St.mk [(['a'], 3)] [] [] [] []) 0 =
      some (false, St.mk [(['a'], 3)] [] [] [] [], [IOAct.dial]) ∧
    (∀ rs : List Record, IOAct.write rs ∉ ([IOAct.dial] : List IOAct)) :=
  dial_failure_spec true true (Cfg.mk 60 false [] [] 30)
    (St.mk [(['a'], 3)] [] [] [] []) 0 [Record.mk ['a'] 3 0]
    (St.mk [] [(['a'], 1)] [] [] []) (by rfl)

end Statsdaemon
